import Mathlib

/-!
Verification of the NimbusSafeCex Binance adapter core
(src/exchanges/binance/binance.exchange.ts, orderQueueManager.ts,
binance.ws-private.ts) against its design specification.

Conventions of the shallow embedding:
* JS numbers are modelled as exact rationals (ℚ); millisecond timestamps of
  the dispatch queue as integers (ℤ).
* Venue payloads ("flat map of venue field names to string values") are
  ordered association lists `List (String × FVal)`; a numeric string such as
  `` `${amount}` `` is modelled as the exact numeral `FVal.q amount`.
* Fallible code (throw / try-catch) is modelled with `Except String`.
* `uuid()` / `generateOrderId()` are modelled by threading a counter of fresh
  client ids.
* Code of the repository that lives outside the provided src/ tree
  (utils/safe-math adjust, utils/scaleWeights, binance.types constant maps,
  the store mutators) is modelled from the spec; each such definition carries
  a doc comment starting with "Modelled from the spec:".
-/

/- The Batteries rational-number operations are shipped `irreducible`, which
blocks `decide` on concrete scenarios; restore the ordinary reducibility of
these computable definitions. -/
attribute [local semireducible] Rat.add Rat.mul Rat.inv Rat.sub Rat.ofScientific

/-! ## Data model (src/types.ts, §3 of the spec) -/

inductive OrderSide where
  | Buy
  | Sell
deriving DecidableEq, Repr

inductive OrderType where
  | Market
  | Limit
  | StopLoss
  | TakeProfit
  | TrailingStopLoss
deriving DecidableEq, Repr

inductive PositionSide where
  | Long
  | Short
deriving DecidableEq, Repr

inductive OrderStatus where
  | Open
  | Closed
  | Canceled
deriving DecidableEq, Repr

inductive OrderTimeInForce where
  | GoodTillCancel
  | ImmediateOrCancel
  | FillOrKill
  | PostOnly
deriving DecidableEq, Repr

structure AmountLimits where
  min : ℚ
  max : ℚ
deriving DecidableEq, Repr

structure LeverageLimits where
  min : ℚ
  max : ℚ
deriving DecidableEq, Repr

structure MarketLimits where
  amount : AmountLimits
  minNotional : ℚ
  leverage : LeverageLimits
deriving DecidableEq, Repr

structure MarketPrecision where
  amount : ℚ
  price : ℚ
deriving DecidableEq, Repr

structure Market where
  symbol : String
  active : Bool
  precision : MarketPrecision
  limits : MarketLimits
deriving DecidableEq, Repr

structure Ticker where
  symbol : String
  bid : ℚ
  ask : ℚ
  last : ℚ
  mark : ℚ
deriving DecidableEq, Repr

structure Position where
  symbol : String
  side : PositionSide
  entryPrice : ℚ
  notional : ℚ
  leverage : ℚ
  unrealizedPnl : ℚ
  contracts : ℚ
  liquidationPrice : ℚ
deriving DecidableEq, Repr

structure WalletAsset where
  symbol : String
  walletBalance : ℚ
  usdValue : ℚ
deriving DecidableEq, Repr

structure Balance where
  total : ℚ
  free : ℚ
  used : ℚ
  upnl : ℚ
  assets : List WalletAsset
deriving DecidableEq, Repr

structure Order where
  id : String
  orderId : String
  status : OrderStatus
  symbol : String
  type : OrderType
  side : OrderSide
  price : ℚ
  amount : ℚ
  filled : ℚ
  remaining : ℚ
  reduceOnly : Bool
deriving DecidableEq, Repr

/-- The process-local store projection (markets, tickers, positions, balance,
orders) plus the `options.isHedged` setting consulted by the formatter. -/
structure Store where
  markets : List Market
  tickers : List Ticker
  positions : List Position
  balance : Balance
  orders : List Order
  isHedged : Bool
deriving DecidableEq, Repr

/-- Placement intent for a simple order (SimpleIntent of the spec /
`PlaceOrderOpts` of the source).  Optional numeric fields are `Option ℚ`;
JS truthiness on them is "present and nonzero". -/
structure PlaceOrderOpts where
  symbol : String
  type : OrderType
  side : OrderSide
  price : Option ℚ
  amount : ℚ
  timeInForce : Option OrderTimeInForce
  reduceOnly : Bool
  stopLoss : Option ℚ
  takeProfit : Option ℚ
deriving DecidableEq, Repr

/-- Split intent (`SplidOrderOpts` of the source, spelling kept). -/
structure SplidOrderOpts where
  symbol : String
  side : OrderSide
  type : OrderType
  amount : ℚ
  orders : ℕ
  fromPrice : ℚ
  toPrice : ℚ
  fromScale : ℚ
  toScale : ℚ
  autoReAdjust : Bool
deriving DecidableEq, Repr

/-! ## Payload maps -/

/-- A payload field value: a plain string, an exact numeral standing for the
stringified number (`` `${x}` `` in the source), or a fresh client id. -/
inductive FVal where
  | s (v : String)
  | q (v : ℚ)
  | n (v : ℕ)
deriving DecidableEq, Repr

/-- A venue payload: ordered map from field name to value, in JS object
insertion order. -/
abbrev Payload := List (String × FVal)

/-- Field lookup on a payload (first occurrence). -/
def Payload.get (p : Payload) (k : String) : Option FVal :=
  (List.find? (fun kv => kv.1 = k) p).map (fun kv => kv.2)

instance {ε α : Type} [DecidableEq ε] [DecidableEq α] : DecidableEq (Except ε α) := fun a b =>
  match a, b with
  | .ok x, .ok y =>
    if h : x = y then isTrue (by rw [h]) else isFalse (fun hc => h (Except.ok.inj hc))
  | .error x, .error y =>
    if h : x = y then isTrue (by rw [h]) else isFalse (fun hc => h (Except.error.inj hc))
  | .ok _, .error _ => isFalse (fun hc => Except.noConfusion hc)
  | .error _, .ok _ => isFalse (fun hc => Except.noConfusion hc)

/-- JS object-spread override `{...p, k: v}`: replace the value in place when
the key exists, otherwise append the key at the end. -/
def setField (p : Payload) (k : String) (v : FVal) : Payload :=
  if List.any p (fun kv => kv.1 = k) then
    List.map (fun kv => if kv.1 = k then (k, v) else kv) p
  else
    p ++ [(k, v)]

/-- lodash `omit(p, k)`. -/
def omitKey (p : Payload) (k : String) : Payload :=
  List.filter (fun kv => kv.1 ≠ k) p

/-- `omitUndefined` from utils: drop the entries whose value is undefined. -/
def omitUndefined (fields : List (String × Option FVal)) : Payload :=
  fields.filterMap (fun kv => Option.map (fun v => (kv.1, v)) kv.2)

/-! ## Numeric helpers -/

/-- Modelled from the spec: `adjust` from utils/safe-math (absent from src/).
Spec §4.C step 3: snap a value to the market step size, flooring toward zero
at the step. -/
def adjust (value step : ℚ) : ℚ :=
  if step = 0 then value else ((value / step).floor : ℚ) * step

/-- JS `%` (truncated remainder); for the nonnegative operands used by the
formatter it agrees with the floor-based remainder. -/
def jsMod (a b : ℚ) : ℚ := a - b * ((a / b).floor : ℚ)

/-- JS `Math.round`: round half toward positive infinity. -/
def jsRound (x : ℚ) : ℤ := (x + 1 / 2).floor

/-- JS truthiness of an optional number: present and nonzero. -/
def truthyQ : Option ℚ → Bool
  | some x => x ≠ 0
  | none => false

/-! ## Venue constant maps (binance.types.ts, absent from src/) -/

/-- Modelled from the spec: `inverseObj(ORDER_SIDE)` of binance.types
(absent from src/); the venue side strings used in payloads (§8 scenario 5
uses `side=SELL`). -/
def sideStr : OrderSide → String
  | .Buy => "BUY"
  | .Sell => "SELL"

/-- Modelled from the spec: `inverseObj(ORDER_TYPE)` of binance.types
(absent from src/); the venue order-type strings. -/
def typeStr : OrderType → String
  | .Market => "MARKET"
  | .Limit => "LIMIT"
  | .StopLoss => "STOP_MARKET"
  | .TakeProfit => "TAKE_PROFIT_MARKET"
  | .TrailingStopLoss => "TRAILING_STOP_MARKET"

/-- Modelled from the spec: `inverseObj(TIME_IN_FORCE)` of binance.types
(absent from src/); §4.C step 6: default GoodTillCancel = "GTC". -/
def tifStr : OrderTimeInForce → String
  | .GoodTillCancel => "GTC"
  | .ImmediateOrCancel => "IOC"
  | .FillOrKill => "FOK"
  | .PostOnly => "GTX"

/-- Modelled from the spec: `POSITION_SIDE` decode map of binance.types
(absent from src/): venue `ps` strings to sides; other strings (e.g. "BOTH")
are not in the map. -/
def POSITION_SIDE : String → Option PositionSide
  | "LONG" => some PositionSide.Long
  | "SHORT" => some PositionSide.Short
  | _ => none

/-- Modelled from the spec: the string form of a `PositionSide` enum value
(types.ts, absent from src/), used only inside error messages. -/
def posSideStr : PositionSide → String
  | .Long => "long"
  | .Short => "short"

/-! ## getOrderPositionSide (binance.exchange.ts lines 906–925) -/

/-- The LONG/SHORT flip applied by `getOrderPositionSide`. -/
def flipPositionSideStr (s : String) : String :=
  if s = "LONG" then "SHORT" else "LONG"

/-- `getOrderPositionSide` (binance.exchange.ts lines 906–925), uncurried over
the `opts` fields it reads (`side`, `type`, `reduceOnly`; a SplidOrderOpts has
no `reduceOnly` property, i.e. `false`). -/
def getOrderPositionSide (isHedged : Bool) (side : OrderSide) (type : OrderType)
    (reduceOnly : Bool) : String :=
  if isHedged then
    let positionSide := if side = OrderSide.Buy then "LONG" else "SHORT"
    if type = OrderType.StopLoss ∨ type = OrderType.TakeProfit ∨
        type = OrderType.TrailingStopLoss ∨ reduceOnly then
      flipPositionSideStr positionSide
    else positionSide
  else "BOTH"

/-! ## formatCreateOrder (binance.exchange.ts lines 764–864) -/

/-- The shared request skeleton `req` built by `formatCreateOrder`
(binance.exchange.ts lines 778–814). -/
def reqFields (isHedged : Bool) (market : Market) (opts : PlaceOrderOpts) : Payload :=
  let isStopOrTP := opts.type = OrderType.StopLoss ∨ opts.type = OrderType.TakeProfit
  let pSide := getOrderPositionSide isHedged opts.side opts.type opts.reduceOnly
  let pPrice := market.precision.price
  let pAmount := market.precision.amount
  let amount := adjust opts.amount pAmount
  let price : Option ℚ :=
    match opts.price with
    | some pr => if pr ≠ 0 ∧ opts.type ≠ OrderType.Market then some (adjust pr pPrice) else none
    | none => none
  let priceField := if isStopOrTP then "stopPrice" else "price"
  let reduceOnly := !isHedged && opts.reduceOnly
  let timeInForce := tifStr (opts.timeInForce.getD OrderTimeInForce.GoodTillCancel)
  omitUndefined
    [("symbol", some (FVal.s opts.symbol)),
     ("positionSide", some (FVal.s pSide)),
     ("side", some (FVal.s (sideStr opts.side))),
     ("type", some (FVal.s (typeStr opts.type))),
     ("quantity", if amount ≠ 0 then some (FVal.q amount) else none),
     (priceField,
       match price with
       | some pr => if pr ≠ 0 then some (FVal.q pr) else none
       | none => none),
     ("timeInForce", if opts.type = OrderType.Limit then some (FVal.s timeInForce) else none),
     ("closePosition", if isStopOrTP then some (FVal.s "true") else none),
     ("reduceOnly", if reduceOnly && !isStopOrTP then some (FVal.s "true") else none)]

/-- The lot fan-out of `formatCreateOrder` (binance.exchange.ts lines
816–828): `⌈amount/max⌉` equal lots plus a remainder lot when the snapped
amount exceeds `limits.amount.max`. -/
def lotPayloads (market : Market) (opts : PlaceOrderOpts) (req : Payload) : List Payload :=
  let pAmount := market.precision.amount
  let maxSize := market.limits.amount.max
  let amount := adjust opts.amount pAmount
  let lots : ℕ := if maxSize < amount then (amount / maxSize).ceil.toNat else 1
  let rest : ℚ := if maxSize < amount then adjust (jsMod amount maxSize) pAmount else 0
  let lotSize := adjust ((amount - rest) / (lots : ℚ)) pAmount
  let base := List.replicate lots (setField req "quantity" (FVal.q lotSize))
  if rest ≠ 0 then base ++ [setField req "quantity" (FVal.q rest)] else base

/-- The side opposite to the intent's side (binance.exchange.ts lines
833–835 and 846–848). -/
def oppositeSide : OrderSide → OrderSide
  | .Buy => .Sell
  | .Sell => .Buy

/-- The attached StopLoss / TakeProfit payload of `formatCreateOrder`
(binance.exchange.ts lines 830–854): spread of `omit(req, "price")` with the
opposite `side`, the stop type, raw `stopPrice`, GTC and
`closePosition=true`. -/
def attachedStopPayload (opts : PlaceOrderOpts) (req : Payload) (stopPrice : ℚ)
    (t : OrderType) : Payload :=
  let base := omitKey req "price"
  setField
    (setField
      (setField
        (setField
          (setField base "side" (FVal.s (sideStr (oppositeSide opts.side))))
          "type" (FVal.s (typeStr t)))
        "stopPrice" (FVal.q stopPrice))
      "timeInForce" (FVal.s "GTC"))
    "closePosition" (FVal.s "true")

/-- StopLoss and TakeProfit attachment (binance.exchange.ts lines 830–854). -/
def stopTpPayloads (opts : PlaceOrderOpts) (req : Payload) : List Payload :=
  let sl :=
    match opts.stopLoss with
    | some v => if v ≠ 0 then [attachedStopPayload opts req v OrderType.StopLoss] else []
    | none => []
  let tp :=
    match opts.takeProfit with
    | some v => if v ≠ 0 then [attachedStopPayload opts req v OrderType.TakeProfit] else []
    | none => []
  sl ++ tp

/-- The final client-id pass of `formatCreateOrder` (binance.exchange.ts
lines 856–861): assign a fresh `newClientOrderId` to every payload. -/
def assignIds (nextId : ℕ) : List Payload → List Payload
  | [] => []
  | p :: rest => setField p "newClientOrderId" (FVal.n nextId) :: assignIds (nextId + 1) rest

/-- The position side a trailing stop requires: the side *opposite* the
order's side (binance.exchange.ts lines 870–871). -/
def trailingPSide (side : OrderSide) : PositionSide :=
  if side = OrderSide.Buy then PositionSide.Short else PositionSide.Long

/-- `formatCreateTrailingStopLossOrder` (binance.exchange.ts lines 866–904). -/
def formatCreateTrailingStopLossOrder (store : Store) (nextId : ℕ)
    (opts : PlaceOrderOpts) : Except String (List Payload) :=
  match store.markets.find? (fun m => m.symbol = opts.symbol) with
  | none => .error ("Market " ++ opts.symbol ++ " not found")
  | some market =>
    match store.tickers.find? (fun t => t.symbol = opts.symbol) with
    | none => .error ("Ticker " ++ opts.symbol ++ " not found")
    | some ticker =>
      match store.positions.find?
          (fun p => p.symbol = opts.symbol ∧ p.side = trailingPSide opts.side) with
      | none =>
        .error ("Position " ++ opts.symbol ++ " and side " ++
          posSideStr (trailingPSide opts.side) ++ " not found")
      | some position =>
        let price := opts.price.getD 0
        let priceDistance :=
          adjust (max ticker.last price - min ticker.last price) market.precision.price
        let distancePercentage : ℚ := (jsRound (priceDistance * 100 / ticker.last * 10) : ℚ) / 10
        .ok [[("symbol", FVal.s opts.symbol),
              ("positionSide",
                FVal.s (getOrderPositionSide store.isHedged opts.side opts.type opts.reduceOnly)),
              ("side", FVal.s (sideStr opts.side)),
              ("type", FVal.s (typeStr OrderType.TrailingStopLoss)),
              ("quantity", FVal.q position.contracts),
              ("callbackRate", FVal.q distancePercentage),
              ("priceProtect", FVal.s "true"),
              ("newClientOrderId", FVal.n nextId)]]

/-- `formatCreateOrder` (binance.exchange.ts lines 764–864). -/
def formatCreateOrder (store : Store) (nextId : ℕ) (opts : PlaceOrderOpts) :
    Except String (List Payload) :=
  if opts.type = OrderType.TrailingStopLoss then
    formatCreateTrailingStopLossOrder store nextId opts
  else
    match store.markets.find? (fun m => m.symbol = opts.symbol) with
    | none => .error ("Market " ++ opts.symbol ++ " not found")
    | some market =>
      let req := reqFields store.isHedged market opts
      .ok (assignIds nextId (lotPayloads market opts req ++ stopTpPayloads opts req))

/-! ## formatCreateSplitOrders (binance.exchange.ts lines 654–763) -/

/-- Modelled from the spec: `calculateWeights` from utils/scaleWeights
(absent from src/).  Spec §4.C split step 2:
`W = Σ_{i=0..N-1} (s0 + (s1−s0)·i/(N−1))`, or `N·s0` when `s0 == s1`. -/
def calculateWeights (fromScale toScale : ℚ) (orders : ℕ) : ℚ :=
  if fromScale = toScale then (orders : ℚ) * fromScale
  else
    (List.range orders).foldl
      (fun acc i => acc + (fromScale + (toScale - fromScale) * (i : ℚ) / ((orders : ℚ) - 1)))
      0

/-- Whether a rung count keeps the smallest slice feasible: the smallest
slice `(s0/W)·amount` is at least `minSize` and its notional at `fromPrice`
at least `minNotional`. -/
def sliceFeasible (fromScale toScale : ℚ) (n : ℕ) (amount minSize minNotional fromPrice : ℚ) :
    Bool :=
  let w := calculateWeights fromScale toScale n
  let lowest := fromScale / w * amount
  decide (minSize ≤ lowest ∧ minNotional ≤ lowest * fromPrice)

/-- Modelled from the spec: `calcValidOrdersCount` from utils/scaleWeights
(absent from src/).  Spec §4.C split step 3: "search for the largest N' ≤ N
that keeps the smallest slice feasible" (0 when none is feasible).  The
`totalWeight` argument of the source call site is not needed by the spec's
description and is ignored. -/
def calcValidOrdersCount (fromScale toScale : ℚ) (orders : ℕ)
    (amount minSize minNotional : ℚ) (_totalWeight fromPrice : ℚ) : ℕ :=
  ((List.range (orders + 1)).filter
      (fun n => sliceFeasible fromScale toScale n amount minSize minNotional fromPrice)).foldl
    max 0

/-- Events emitted through the emitter by `formatCreateSplitOrders`; the
constructors carry the interpolated values of the original message strings. -/
inductive SplitEvent where
  /-- info channel: "Splitting (amount) into (orders)" -/
  | infoSplitting (amount : ℚ) (orders : ℕ)
  /-- info channel: "Quantity: (q)" -/
  | infoQuantity (q : ℚ)
  /-- error channel: "Bruh either u poor or retardio cannot split" -/
  | errorCannotSplit
  /-- error channel: "WTF u doing something wrong wen spliting orders (n)" -/
  | errorStillInfeasible (n : ℕ)
  /-- error channel: "Scale too extreme to split orders - no adjustments made" -/
  | errorScaleTooExtreme
  /-- info channel: "Total Quantity: (q)" -/
  | infoTotalQuantity (q : ℚ)
deriving DecidableEq, Repr

/-- The message string of a `SplitEvent` (binance.exchange.ts lines 681–682,
704–707, 720–723, 727–730, 761); the interpolated rational is elided, the
constant parts are literal. -/
def SplitEvent.message : SplitEvent → String
  | .infoSplitting _ n => "Splitting (amount) into " ++ toString n
  | .infoQuantity _ => "Quantity: (quantity)"
  | .errorCannotSplit => "Bruh either u poor or retardio cannot split"
  | .errorStillInfeasible n => "WTF u doing something wrong wen spliting orders " ++ toString n
  | .errorScaleTooExtreme => "Scale too extreme to split orders - no adjustments made"
  | .infoTotalQuantity _ => "Total Quantity: (totalQuantity)"

/-- The rung-building loop of `formatCreateSplitOrders` (binance.exchange.ts
lines 734–762), returning the payload list and the accumulated
`totalQuantity`. -/
def splitLoop (opts : SplidOrderOpts) (pSide : String) (pAmount pPrice minNotional : ℚ)
    (quantity totalWeight : ℚ) (nextId : ℕ) : List Payload × ℚ :=
  let priceStep := (opts.toPrice - opts.fromPrice) / ((opts.orders : ℚ) - 1)
  (List.range opts.orders).foldl
    (fun acc (i : ℕ) =>
      let weightOfOrder :=
        opts.fromScale + (opts.toScale - opts.fromScale) * ((i : ℚ) / ((opts.orders : ℚ) - 1))
      let sizeOfOrder0 := quantity * (weightOfOrder / totalWeight)
      let price := opts.fromPrice + priceStep * (i : ℚ)
      let sizeOfOrder :=
        if sizeOfOrder0 * price < minNotional * 1.05 then minNotional * 1.1 / price
        else sizeOfOrder0
      let req : Payload :=
        [("symbol", FVal.s opts.symbol),
         ("positionSide", FVal.s pSide),
         ("side", FVal.s (sideStr opts.side)),
         ("type", FVal.s (typeStr opts.type)),
         ("quantity", FVal.q (adjust sizeOfOrder pAmount)),
         ("timeInForce", FVal.s "GTC"),
         ("price", FVal.q (adjust price pPrice)),
         ("reduceOnly", FVal.s "false"),
         ("newClientOrderId", FVal.n (nextId + i))]
      (acc.1 ++ [req], acc.2 + adjust sizeOfOrder pAmount))
    ([], 0)

/-- `formatCreateSplitOrders` (binance.exchange.ts lines 654–763); the
returned pair is the payload list together with the emitted events. -/
def formatCreateSplitOrders (store : Store) (nextId : ℕ) (opts : SplidOrderOpts) :
    Except String (List Payload × List SplitEvent) :=
  match store.markets.find? (fun m => m.symbol = opts.symbol) with
  | none => .error ("Market " ++ opts.symbol ++ " not found")
  | some market =>
    match store.tickers.find? (fun t => t.symbol = opts.symbol) with
    | none => .error ("Ticker " ++ opts.symbol ++ " not found")
    | some _ticker =>
      let minSize := market.limits.amount.min
      let minNotional := market.limits.minNotional
      let pPrice := market.precision.price
      let pAmount := market.precision.amount
      let pSide := getOrderPositionSide store.isHedged opts.side opts.type false
      let avgPrice := (opts.fromPrice + opts.toPrice) / 2
      let quantity := opts.amount / avgPrice
      let ev0 := [SplitEvent.infoSplitting opts.amount opts.orders,
                  SplitEvent.infoQuantity quantity]
      let totalWeight := calculateWeights opts.fromScale opts.toScale opts.orders
      let lowestSize := opts.fromScale / totalWeight * quantity
      let body : List SplitEvent → Except String (List Payload × List SplitEvent) :=
        fun ev =>
          let res := splitLoop opts pSide pAmount pPrice minNotional quantity totalWeight nextId
          .ok (res.1, ev ++ [SplitEvent.infoTotalQuantity res.2])
      if lowestSize < minSize ∨ lowestSize * opts.fromPrice < minNotional then
        if opts.autoReAdjust then
          let validOrdersAmount :=
            calcValidOrdersCount opts.fromScale opts.toScale opts.orders quantity minSize
              minNotional totalWeight opts.fromPrice
          if validOrdersAmount < 3 then
            .ok ([], ev0 ++ [SplitEvent.errorCannotSplit])
          else
            let reAdjustedWeight := calculateWeights opts.fromScale opts.toScale validOrdersAmount
            let newLowestSize := opts.fromScale / reAdjustedWeight * quantity
            if newLowestSize < minSize ∨ newLowestSize * opts.fromPrice < minNotional then
              .ok ([], ev0 ++ [SplitEvent.errorStillInfeasible validOrdersAmount])
            else body ev0
        else
          .ok ([], ev0 ++ [SplitEvent.errorScaleTooExtreme])
      else body ev0

/-! ## Dispatch queue (orderQueueManager.ts lines 59–129) -/

/-- The two rolling windows of admitted payload timestamps
(`orderTimestamps10s` / `orderTimestamps60s`), in push order. -/
structure QState where
  w10 : List ℤ
  w60 : List ℤ
deriving DecidableEq, Repr

/-- Prune a window to its horizon (orderQueueManager.ts lines 66–71):
keep the timestamps with `now - t < horizonMs`. -/
def pruneWindow (horizonMs now : ℤ) (w : List ℤ) : List ℤ :=
  w.filter (fun t => now - t < horizonMs)

/-- `Math.min(w10[0], w60[0])` of the saturated branch
(orderQueueManager.ts line 79); a missing head is JS `undefined`, making the
minimum NaN, modelled as `none`. -/
def jsMinHeads : List ℤ → List ℤ → Option ℤ
  | t10 :: _, t60 :: _ => some (min t10 t60)
  | _, _ => none

/-- The outcome of one iteration of the `processOrders` while-loop. -/
structure IterOut where
  state : QState
  admitted : ℕ
  dispatchedBatch : Bool
  sleepMs : Option ℚ
deriving DecidableEq, Repr

/-- One iteration of the `processOrders` scheduling loop
(orderQueueManager.ts lines 63–128) at wall-clock time `now` with
`queueLen` payloads queued: prune both windows; if a window is saturated,
dispatch nothing and sleep `now - min(head10, head60) + 1` ms; otherwise
charge `min(300-|w10|, 1200-|w60|, queueLen, 5)` timestamps to both windows
before dispatching the batch, then sleep the paced amount.  A NaN sleep
(missing head) is `none`. -/
def processIteration (s : QState) (now : ℤ) (queueLen : ℕ) : IterOut :=
  let w10 := pruneWindow 10000 now s.w10
  let w60 := pruneWindow 60000 now s.w60
  if 300 ≤ w10.length ∨ 1200 ≤ w60.length then
    { state := ⟨w10, w60⟩, admitted := 0, dispatchedBatch := false,
      sleepMs := (jsMinHeads w10 w60).map (fun m => ((now - m + 1 : ℤ) : ℚ)) }
  else
    let maxAllowedSize := min (min (300 - w10.length) (1200 - w60.length)) (min queueLen 5)
    let w10' := w10 ++ List.replicate maxAllowedSize now
    let w60' := w60 ++ List.replicate maxAllowedSize now
    let remainingTime10s : Option ℚ := w10'.head?.map (fun t => ((10000 - (now - t) : ℤ) : ℚ))
    let remainingTime60s : Option ℚ := w60'.head?.map (fun t => ((60000 - (now - t) : ℤ) : ℚ))
    let remainingLots10s : ℕ := (300 - w10'.length) / 5
    let remainingLots60s : ℕ := (1200 - w60'.length) / 5
    let sleepTime10s : Option ℚ :=
      if 0 < remainingLots10s then remainingTime10s.map (fun t => t / (remainingLots10s : ℚ))
      else some 1000
    let sleepTime60s : Option ℚ :=
      if 0 < remainingLots60s then remainingTime60s.map (fun t => t / (remainingLots60s : ℚ))
      else some 1000
    let sleepMs : Option ℚ :=
      match sleepTime10s, sleepTime60s with
      | some a, some b => some (min a b)
      | _, _ => none
    { state := ⟨w10', w60'⟩, admitted := maxAllowedSize, dispatchedBatch := true,
      sleepMs := sleepMs }

/-- A run of the scheduling loop over a list of iteration inputs
`(now, queueLen)`, collecting `(now, admitted)` per iteration.  The inputs
over-approximate every real execution: any wall-clock times (nondecreasing)
and any queue lengths, covering concurrent `enqueueOrders` calls. -/
def runQueue : QState → List (ℤ × ℕ) → List (ℤ × ℕ)
  | _, [] => []
  | s, (now, q) :: rest =>
    let out := processIteration s now q
    (now, out.admitted) :: runQueue out.state rest

/-- Total payloads admitted in the trailing window `(endT - horizonMs, endT]`. -/
def windowLoad (admissions : List (ℤ × ℕ)) (horizonMs endT : ℤ) : ℕ :=
  ((admissions.filter (fun tc => endT - horizonMs < tc.1 ∧ tc.1 ≤ endT)).map
      (fun tc => tc.2)).sum

/-- Number of stored window timestamps strictly later than `lo`. -/
def countLater (w : List ℤ) (lo : ℤ) : ℕ :=
  (w.filter (fun t => lo < t)).length

/-- Total admitted count over the entries with timestamp strictly later
than `lo`. -/
def loadAfter (admissions : List (ℤ × ℕ)) (lo : ℤ) : ℕ :=
  ((admissions.filter (fun tc => lo < tc.1)).map (fun tc => tc.2)).sum

/-- The iteration times are nondecreasing (each time bounds all later
ones); Date.now() is monotone across loop iterations. -/
def timesOrderedB : List (ℤ × ℕ) → Bool
  | [] => true
  | (t, _) :: rest => rest.all (fun tc => t ≤ tc.1) && timesOrderedB rest

/-! ## Private stream ping echo (binance.ws-private.ts lines 44–54) -/

/-- The private websocket callback state relevant to the ping protocol:
the high-resolution send timestamp, the in-flight re-ping timer (if any),
the stored latency, and a supply of fresh timer ids. -/
structure WsState where
  pingAt : ℚ
  pingTimeoutId : Option ℕ
  latency : ℤ
  nextTimerId : ℕ
deriving DecidableEq, Repr

/-- Timer side effects of a callback: timers cleared and timers armed
`(id, delayMs)`. -/
structure TimerActions where
  cleared : List ℕ
  armed : List (ℕ × ℚ)
deriving DecidableEq, Repr

/-- The `id == 42` ping-echo branch of `onMessage`
(binance.ws-private.ts lines 44–54): store
`latency = round((now − pingAt)/2)`, clear any in-flight re-ping timer, and
arm a single 10-second re-ping timer. -/
def onPongMessage (st : WsState) (now : ℚ) : WsState × TimerActions :=
  let latency := jsRound ((now - st.pingAt) / 2)
  let cleared :=
    match st.pingTimeoutId with
    | some tid => [tid]
    | none => []
  let newTimer := st.nextTimerId
  ({ st with latency := latency, pingTimeoutId := some newTimer,
             nextTimerId := st.nextTimerId + 1 },
   { cleared := cleared, armed := [(newTimer, 10000)] })

/-! ## ACCOUNT_UPDATE position slots (binance.ws-private.ts lines 109–134)
and bootstrap position mapping (binance.exchange.ts lines 374–400) -/

/-- An ACCOUNT_UPDATE position slot (`event.a.P[k]`), fields already
`parseFloat`ed. -/
structure RawPositionSlot where
  s : String
  ps : String
  ep : ℚ
  pa : ℚ
  up : ℚ
deriving DecidableEq, Repr

/-- The per-slot position update of `handleAccountEvents`
(binance.ws-private.ts lines 114–134): locate the first stored position with
matching `(symbol, side)` (side decoded from venue `ps`) and patch
`entryPrice`, `contracts` (raw `pa`), `notional = contracts·entryPrice + upnl`
and `unrealizedPnl`; other positions are untouched. -/
def applyPositionSlot : List Position → RawPositionSlot → List Position
  | [], _ => []
  | pos :: rest, slot =>
    if pos.symbol = slot.s ∧ POSITION_SIDE slot.ps = some pos.side then
      { pos with entryPrice := slot.ep, contracts := slot.pa,
                 notional := slot.pa * slot.ep + slot.up,
                 unrealizedPnl := slot.up } :: rest
    else pos :: applyPositionSlot rest slot

/-- A raw account position from `GET account` (`data.positions[k]`), fields
already `parseFloat`ed. -/
structure RawAccountPosition where
  symbol : String
  entryPrice : ℚ
  positionAmt : ℚ
  unrealizedProfit : ℚ
  positionSide : String
  leverage : ℚ
  liquidationPrice : ℚ
deriving DecidableEq, Repr

/-- The bootstrap/tick position mapping of `fetchBalanceAndPositions`
(binance.exchange.ts lines 378–400): side from the venue `positionSide` when
hedged, else from the sign of `positionAmt`; `contracts = |positionAmt|`. -/
def mapAccountPosition (p : RawAccountPosition) : Position :=
  let side := (POSITION_SIDE p.positionSide).getD
    (if 0 < p.positionAmt then PositionSide.Long else PositionSide.Short)
  { symbol := p.symbol
    side := side
    entryPrice := p.entryPrice
    notional := |p.positionAmt * p.entryPrice + p.unrealizedProfit|
    leverage := p.leverage
    unrealizedPnl := p.unrealizedProfit
    contracts := |p.positionAmt|
    liquidationPrice := p.liquidationPrice }

/-- The catalog filter and mapping of `fetchBalanceAndPositions`
(binance.exchange.ts lines 374–400): drop positions whose symbol is not in
the market catalog, then map. -/
def mapAccountPositions (markets : List Market) (ps : List RawAccountPosition) :
    List Position :=
  (ps.filter (fun p => markets.any (fun m => m.symbol = p.symbol))).map mapAccountPosition

/-! ## Bootstrap / tick fetchers (binance.exchange.ts lines 182–445) -/

/-- `fetchMarkets` (binance.exchange.ts lines 182–275): the try-body (HTTP +
catalog parsing) is abstracted as its resulting value `attempt`; the catch
branch emits the error and returns the previously stored markets.  Returns
the result together with the errors emitted. -/
def fetchMarkets (attempt : Except String (List Market)) (store : Store) :
    List Market × List String :=
  match attempt with
  | .ok markets => (markets, [])
  | .error e => (store.markets, [e])

/-- `fetchTickers` (binance.exchange.ts lines 277–322), same shape as
`fetchMarkets`. -/
def fetchTickers (attempt : Except String (List Ticker)) (store : Store) :
    List Ticker × List String :=
  match attempt with
  | .ok tickers => (tickers, [])
  | .error e => (store.tickers, [e])

/-- `fetchOrders` (binance.exchange.ts lines 416–445), same shape as
`fetchMarkets`. -/
def fetchOrders (attempt : Except String (List Order)) (store : Store) :
    List Order × List String :=
  match attempt with
  | .ok orders => (orders, [])
  | .error e => (store.orders, [e])

/-- A raw asset slot of `GET account` (`data.assets[k]`). -/
structure RawAsset where
  asset : String
  walletBalance : ℚ
deriving DecidableEq, Repr

/-- The raw `GET account` response consumed by `fetchBalanceAndPositions`. -/
structure RawAccountData where
  availableBalance : ℚ
  totalInitialMargin : ℚ
  totalUnrealizedProfit : ℚ
  assets : List RawAsset
  positions : List RawAccountPosition
deriving DecidableEq, Repr

/-- The stablecoins whose USD value is the wallet balance itself
(binance.exchange.ts line 347). -/
def stableAssets : List String := ["USDC", "USDT", "FDUSD"]

/-- The asset loop of `fetchBalanceAndPositions` (binance.exchange.ts lines
338–369): keep assets with positive wallet balance; non-stablecoins are
converted through the `asset + "USDT"` ticker, throwing
`Ticker ... not found` when it is missing. -/
def buildAssets (tickers : List Ticker) : List RawAsset → Except String (List WalletAsset)
  | [] => .ok []
  | a :: rest =>
    if 0 < a.walletBalance then
      let usdValue : Except String ℚ :=
        if stableAssets.contains a.asset then .ok a.walletBalance
        else
          match tickers.find? (fun t => t.symbol = a.asset ++ "USDT") with
          | none => .error ("Ticker " ++ a.asset ++ "USDT not found")
          | some t => .ok (t.last * a.walletBalance)
      match usdValue with
      | .error e => .error e
      | .ok usd =>
        (buildAssets tickers rest).map
          (fun l => ({ symbol := a.asset, walletBalance := a.walletBalance, usdValue := usd } :
            WalletAsset) :: l)
    else buildAssets tickers rest

/-- The try-body of `fetchBalanceAndPositions` (binance.exchange.ts lines
324–405) applied to parsed account data: builds the balance (total = sum of
kept assets' USD values) and the filtered, mapped positions. -/
def accountResult (store : Store) (data : RawAccountData) :
    Except String (List Position × Balance) :=
  (buildAssets store.tickers data.assets).map
    (fun assets =>
      (mapAccountPositions store.markets data.positions,
       { total := (assets.map (fun a => a.usdValue)).sum
         free := data.availableBalance
         used := data.totalInitialMargin
         upnl := data.totalUnrealizedProfit
         assets := assets }))

/-- `fetchBalanceAndPositions` (binance.exchange.ts lines 324–414): on any
error of the try-body (HTTP failure surfaced through `attempt`, or a missing
conversion ticker), emit the error and return the previously stored
positions and balance. -/
def fetchBalanceAndPositions (attempt : Except String RawAccountData) (store : Store) :
    (List Position × Balance) × List String :=
  match attempt.bind (accountResult store) with
  | .ok res => (res, [])
  | .error e => ((store.positions, store.balance), [e])

/-! ## setLeverage (binance.exchange.ts lines 519–546) -/

/-- A `POST set-leverage` venue call. -/
structure SetLeverageCall where
  symbol : String
  leverage : ℚ
deriving DecidableEq, Repr

/-- `setLeverage` (binance.exchange.ts lines 519–546): throws when market or
position is missing; clamps the input leverage into the market's leverage
limits; no-ops when the stored position already has the clamped leverage;
otherwise posts the clamped leverage and patches both position sides of the
symbol in the store (`store.updatePositions`, modelled from the spec's Store
component: patch the positions matching `(symbol, side)`). -/
def setLeverage (store : Store) (symbol : String) (inputLeverage : ℚ) :
    Except String (Option SetLeverageCall × Store) :=
  match store.markets.find? (fun m => m.symbol = symbol) with
  | none => .error ("Market " ++ symbol ++ " not found")
  | some market =>
    match store.positions.find? (fun p => p.symbol = symbol) with
    | none => .error ("Position " ++ symbol ++ " not found")
    | some position =>
      let leverage :=
        min (max inputLeverage market.limits.leverage.min) market.limits.leverage.max
      if position.leverage ≠ leverage then
        .ok (some { symbol := symbol, leverage := leverage },
          { store with
              positions := store.positions.map
                (fun p => if p.symbol = symbol then { p with leverage := leverage } else p) })
      else .ok (none, store)

/-! ## Concrete scenarios -/

/-- A payload with the given keys removed (used to compare request
skeletons). -/
def stripKeys (p : Payload) (ks : List String) : Payload :=
  p.filter (fun kv => ¬ ks.contains kv.1)

def emptyBalance : Balance :=
  { total := 0, free := 0, used := 0, upnl := 0, assets := [] }

/-- Hedge-mode stop-loss scenario market (spec §8 scenario 5). -/
def mC1 : Market :=
  { symbol := "BTCUSDT"
    active := true
    precision := { amount := 1/1000, price := 1/10 }
    limits :=
      { amount := { min := 1/1000, max := 100 }
        minNotional := 5
        leverage := { min := 1, max := 125 } } }

def storeC1 : Store :=
  { markets := [mC1]
    tickers := []
    positions := []
    balance := emptyBalance
    orders := []
    isHedged := true }

/-- Buy Limit intent with an attached stopLoss, price 100, amount 1
(spec §8 scenario 5 with `stopLoss = 95`). -/
def optsC1 (stopLossPrice : ℚ) : PlaceOrderOpts :=
  { symbol := "BTCUSDT"
    type := OrderType.Limit
    side := OrderSide.Buy
    price := some 100
    amount := 1
    timeInForce := none
    reduceOnly := false
    stopLoss := some stopLossPrice
    takeProfit := none }

/-- Lot-splitting scenario market (spec §8 scenario 1): `max = 100`,
`step = 0.1`. -/
def mC4 : Market :=
  { symbol := "BTCUSDT"
    active := true
    precision := { amount := 1/10, price := 1/10 }
    limits :=
      { amount := { min := 1/10, max := 100 }
        minNotional := 5
        leverage := { min := 1, max := 125 } } }

def storeC4 : Store :=
  { markets := [mC4]
    tickers := []
    positions := []
    balance := emptyBalance
    orders := []
    isHedged := false }

/-- Buy 250.35 contracts (spec §8 scenario 1). -/
def optsC4 : PlaceOrderOpts :=
  { symbol := "BTCUSDT"
    type := OrderType.Market
    side := OrderSide.Buy
    price := none
    amount := 250.35
    timeInForce := none
    reduceOnly := false
    stopLoss := none
    takeProfit := none }

/-- The payloads the code produces for the lot-splitting scenario: three
lots of 66.6 and a remainder lot of 50.3, distinct client ids. -/
def c4Payload (qty : ℚ) (cid : ℕ) : Payload :=
  [("symbol", FVal.s "BTCUSDT"),
   ("positionSide", FVal.s "BOTH"),
   ("side", FVal.s "BUY"),
   ("type", FVal.s "MARKET"),
   ("quantity", FVal.q qty),
   ("newClientOrderId", FVal.n cid)]

/-- Split auto-readjust scenario market (spec §8 scenarios 2–3):
`minSize = 0.001`, `minNotional = 5`. -/
def mC6 : Market :=
  { symbol := "ETHUSDT"
    active := true
    precision := { amount := 1/1000, price := 1/10 }
    limits :=
      { amount := { min := 1/1000, max := 1000 }
        minNotional := 5
        leverage := { min := 1, max := 100 } } }

def tC6 : Ticker :=
  { symbol := "ETHUSDT", bid := 105, ask := 105, last := 105, mark := 105 }

def storeC6 : Store :=
  { markets := [mC6]
    tickers := [tC6]
    positions := []
    balance := emptyBalance
    orders := []
    isHedged := false }

/-- Split intent (spec §8 scenario 3): orders = 10, scale 1→20,
amount = 12, prices 100→110. -/
def optsC6 (adj : Bool) : SplidOrderOpts :=
  { symbol := "ETHUSDT"
    side := OrderSide.Buy
    type := OrderType.Limit
    amount := 12
    orders := 10
    fromPrice := 100
    toPrice := 110
    fromScale := 1
    toScale := 20
    autoReAdjust := adj }

/-- A queue state whose two windows hold 300 charges at t = 1000 ms. -/
def qStateC5 : QState :=
  ⟨List.replicate 300 1000, List.replicate 300 1000⟩

/-- Seventy loop iterations one millisecond apart against a deep queue: the
loop admits 5 payloads per iteration until the 10-second window saturates at
300, then admits nothing. -/
def c3burst : List (ℤ × ℕ) :=
  (List.range 70).map (fun i => ((i : ℤ), 400))

/-- A stored short position of 5 contracts on BTCUSDT. -/
def shortPosC2 : Position :=
  { symbol := "BTCUSDT"
    side := PositionSide.Short
    entryPrice := 100
    notional := 500
    leverage := 10
    unrealizedPnl := 0
    contracts := 5
    liquidationPrice := 0 }

/-- An ACCOUNT_UPDATE position slot for that short position with the venue's
signed position amount `pa = -5`. -/
def slotC2 : RawPositionSlot :=
  { s := "BTCUSDT", ps := "SHORT", ep := 100, pa := -5, up := 0 }

/-- A store holding the BTCUSDT market (leverage limits [1, 125]) and the
short position at leverage 10, for exercising `setLeverage`. -/
def storeC10 : Store :=
  { markets := [mC1]
    tickers := []
    positions := [shortPosC2]
    balance := emptyBalance
    orders := []
    isHedged := true }

/-- The primary payload produced for the hedge-mode stop-loss scenario. -/
def c1Primary : Payload :=
  [("symbol", FVal.s "BTCUSDT"), ("positionSide", FVal.s "LONG"), ("side", FVal.s "BUY"),
   ("type", FVal.s "LIMIT"), ("quantity", FVal.q 1), ("price", FVal.q 100),
   ("timeInForce", FVal.s "GTC"), ("newClientOrderId", FVal.n 0)]

/-- The attached StopLoss payload produced for the hedge-mode stop-loss
scenario. -/
def c1Stop (sl : ℚ) : Payload :=
  [("symbol", FVal.s "BTCUSDT"), ("positionSide", FVal.s "LONG"), ("side", FVal.s "SELL"),
   ("type", FVal.s "STOP_MARKET"), ("quantity", FVal.q 1), ("timeInForce", FVal.s "GTC"),
   ("stopPrice", FVal.q sl), ("closePosition", FVal.s "true"), ("newClientOrderId", FVal.n 1)]

/-! ## Payload lemma kit -/

theorem find?_map_override_ne (p : Payload) {k k' : String} (v : FVal) (h : k' ≠ k) :
    List.find? (fun kv => kv.1 = k') (p.map (fun kv => if kv.1 = k then (k, v) else kv)) =
      List.find? (fun kv => kv.1 = k') p := by
  induction p with
  | nil => rfl
  | cons kv rest ih =>
    by_cases hk : kv.1 = k
    · rw [List.map_cons, if_pos hk, List.find?_cons_of_neg _ (by simp [Ne.symm h]),
        List.find?_cons_of_neg _ (by simp [hk, Ne.symm h])]
      exact ih
    · rw [List.map_cons, if_neg hk]
      by_cases hk' : kv.1 = k'
      · rw [List.find?_cons_of_pos _ (by simp [hk']), List.find?_cons_of_pos _ (by simp [hk'])]
      · rw [List.find?_cons_of_neg _ (by simp [hk']), List.find?_cons_of_neg _ (by simp [hk'])]
        exact ih

theorem find?_map_override_self (p : Payload) {k : String} (v : FVal)
    (hany : p.any (fun kv => kv.1 = k) = true) :
    List.find? (fun kv => kv.1 = k) (p.map (fun kv => if kv.1 = k then (k, v) else kv)) =
      some (k, v) := by
  induction p with
  | nil => simp at hany
  | cons kv rest ih =>
    by_cases hk : kv.1 = k
    · rw [List.map_cons, if_pos hk, List.find?_cons_of_pos _ (by simp)]
    · rw [List.map_cons, if_neg hk, List.find?_cons_of_neg _ (by simp [hk])]
      apply ih
      simp only [List.any_cons, Bool.or_eq_true] at hany
      rcases hany with h1 | h2
      · exact absurd (of_decide_eq_true h1) hk
      · exact h2

theorem payloadGet_setField_ne (p : Payload) {k k' : String} (v : FVal) (h : k' ≠ k) :
    Payload.get (setField p k v) k' = Payload.get p k' := by
  unfold setField
  split
  · unfold Payload.get
    rw [find?_map_override_ne p v h]
  · unfold Payload.get
    rw [List.find?_append]
    have hnone : List.find? (fun kv => kv.1 = k') [(k, v)] = none := by
      rw [List.find?_eq_none]
      intro kv hkv
      simp only [List.mem_singleton] at hkv
      simp [hkv, Ne.symm h]
    rw [hnone]
    cases List.find? (fun kv => kv.1 = k') p <;> rfl

theorem payloadGet_setField_self (p : Payload) (k : String) (v : FVal) :
    Payload.get (setField p k v) k = some v := by
  unfold setField
  split
  · next hany =>
    unfold Payload.get
    rw [find?_map_override_self p v hany]
    rfl
  · next hany =>
    unfold Payload.get
    rw [List.find?_append]
    have hnone : List.find? (fun kv => kv.1 = k) p = none := by
      rw [List.find?_eq_none]
      intro kv hkv
      simp only [decide_eq_true_eq]
      intro hcontra
      exact hany (List.any_eq_true.mpr ⟨kv, hkv, by simp [hcontra]⟩)
    rw [hnone]
    simp [List.find?]

theorem payloadGet_omitKey_self (p : Payload) (k : String) :
    Payload.get (omitKey p k) k = none := by
  unfold Payload.get omitKey
  have hnone : List.find? (fun kv => kv.1 = k)
      (List.filter (fun kv => decide (kv.1 ≠ k)) p) = none := by
    rw [List.find?_eq_none]
    intro kv hkv
    have := (List.mem_filter.mp hkv).2
    simp only [decide_eq_true_eq] at this ⊢
    exact this
  rw [hnone]
  rfl

theorem payloadGet_omitKey_ne (p : Payload) {k k' : String} (h : k' ≠ k) :
    Payload.get (omitKey p k) k' = Payload.get p k' := by
  unfold Payload.get omitKey
  induction p with
  | nil => rfl
  | cons kv rest ih =>
    by_cases hk : kv.1 = k
    · rw [List.filter_cons_of_neg (by simp [hk]),
        List.find?_cons_of_neg _ (by simp [hk, Ne.symm h])]
      exact ih
    · rw [List.filter_cons_of_pos (by simp [hk])]
      by_cases hk' : kv.1 = k'
      · rw [List.find?_cons_of_pos _ (by simp [hk']), List.find?_cons_of_pos _ (by simp [hk'])]
      · rw [List.find?_cons_of_neg _ (by simp [hk']), List.find?_cons_of_neg _ (by simp [hk'])]
        exact ih

theorem payloadGet_omitUndefined_absent (l : List (String × Option FVal)) (k : String)
    (h : ∀ kv ∈ l, kv.1 = k → kv.2 = none) :
    Payload.get (omitUndefined l) k = none := by
  unfold Payload.get omitUndefined
  induction l with
  | nil => rfl
  | cons kv rest ih =>
    cases hv : kv.2 with
    | none =>
      rw [show List.filterMap (fun kv => Option.map (fun v => (kv.1, v)) kv.2) (kv :: rest) =
          List.filterMap (fun kv => Option.map (fun v => (kv.1, v)) kv.2) rest from by
        simp [List.filterMap, hv]]
      exact ih (fun kv2 hkv2 => h kv2 (List.mem_cons_of_mem kv hkv2))
    | some v =>
      have hne : kv.1 ≠ k := fun hcontra => by
        have := h kv (List.mem_cons_self kv rest) hcontra
        rw [hv] at this
        exact Option.noConfusion this
      rw [show List.filterMap (fun kv => Option.map (fun v => (kv.1, v)) kv.2) (kv :: rest) =
          (kv.1, v) :: List.filterMap (fun kv => Option.map (fun v => (kv.1, v)) kv.2) rest
        from by simp [List.filterMap, hv]]
      simp only [List.find?]
      rw [show (decide (kv.1 = k) = false) from by simp [hne]]
      exact ih (fun kv2 hkv2 => h kv2 (List.mem_cons_of_mem kv hkv2))

theorem mem_assignIds (nextId : ℕ) (ps : List Payload) (p : Payload)
    (h : p ∈ assignIds nextId ps) :
    ∃ q ∈ ps, ∃ m : ℕ, p = setField q "newClientOrderId" (FVal.n m) := by
  induction ps generalizing nextId with
  | nil => simp [assignIds] at h
  | cons q rest ih =>
    simp only [assignIds, List.mem_cons] at h
    rcases h with h | h
    · exact ⟨q, List.mem_cons_self q rest, nextId, h⟩
    · obtain ⟨q2, hq2, m, hm⟩ := ih (nextId + 1) h
      exact ⟨q2, List.mem_cons_of_mem q hq2, m, hm⟩

theorem mem_lotPayloads (market : Market) (opts : PlaceOrderOpts) (req : Payload)
    (q : Payload) (h : q ∈ lotPayloads market opts req) :
    ∃ v : ℚ, q = setField req "quantity" (FVal.q v) := by
  simp only [lotPayloads] at h
  repeat' split at h
  all_goals
    first
    | exact ⟨_, (List.eq_of_mem_replicate h)⟩
    | (rw [List.mem_append] at h
       rcases h with h | h
       · exact ⟨_, (List.eq_of_mem_replicate h)⟩
       · simp only [List.mem_singleton] at h
         exact ⟨_, h⟩)

theorem mem_stopTpPayloads (opts : PlaceOrderOpts) (req : Payload) (q : Payload)
    (h : q ∈ stopTpPayloads opts req) :
    ∃ sp : ℚ, ∃ t : OrderType, q = attachedStopPayload opts req sp t := by
  simp only [stopTpPayloads] at h
  rw [List.mem_append] at h
  rcases h with h | h
  · split at h
    · next v _ =>
      split at h
      · simp only [List.mem_singleton] at h
        exact ⟨v, OrderType.StopLoss, h⟩
      · simp at h
    · simp at h
  · split at h
    · next v _ =>
      split at h
      · simp only [List.mem_singleton] at h
        exact ⟨v, OrderType.TakeProfit, h⟩
      · simp at h
    · simp at h

theorem payloadGet_attachedStop_ne (opts : PlaceOrderOpts) (req : Payload) (sp : ℚ)
    (t : OrderType) {k : String}
    (h1 : k ≠ "side") (h2 : k ≠ "type") (h3 : k ≠ "stopPrice") (h4 : k ≠ "timeInForce")
    (h5 : k ≠ "closePosition") (h6 : k ≠ "price") :
    Payload.get (attachedStopPayload opts req sp t) k = Payload.get req k := by
  simp only [attachedStopPayload]
  rw [payloadGet_setField_ne _ _ h5, payloadGet_setField_ne _ _ h4,
    payloadGet_setField_ne _ _ h3, payloadGet_setField_ne _ _ h2,
    payloadGet_setField_ne _ _ h1, payloadGet_omitKey_ne _ h6]

/-- On a hedged account the request skeleton never contains a `reduceOnly`
entry: the source computes `reduceOnly = !isHedged && opts.reduceOnly`. -/
theorem reqFields_hedged_no_reduceOnly (market : Market) (opts : PlaceOrderOpts) :
    Payload.get (reqFields true market opts) "reduceOnly" = none := by
  simp only [reqFields]
  apply payloadGet_omitUndefined_absent
  intro kv hkv
  simp only [List.mem_cons, List.not_mem_nil, or_false] at hkv
  rcases hkv with h | h | h | h | h | h | h | h | h <;> subst h
  · exact fun he => absurd (show ("symbol" : String) = "reduceOnly" from he) (by decide)
  · exact fun he => absurd (show ("positionSide" : String) = "reduceOnly" from he) (by decide)
  · exact fun he => absurd (show ("side" : String) = "reduceOnly" from he) (by decide)
  · exact fun he => absurd (show ("type" : String) = "reduceOnly" from he) (by decide)
  · exact fun he => absurd (show ("quantity" : String) = "reduceOnly" from he) (by decide)
  · intro he
    split at he
    · exact absurd (show ("stopPrice" : String) = "reduceOnly" from he) (by decide)
    · exact absurd (show ("price" : String) = "reduceOnly" from he) (by decide)
  · exact fun he => absurd (show ("timeInForce" : String) = "reduceOnly" from he) (by decide)
  · exact fun he => absurd (show ("closePosition" : String) = "reduceOnly" from he) (by decide)
  · exact fun _ => rfl

/-- The request skeleton always carries the `positionSide` resolved from the
primary intent. -/
theorem reqFields_get_positionSide (isHedged : Bool) (market : Market)
    (opts : PlaceOrderOpts) :
    Payload.get (reqFields isHedged market opts) "positionSide" =
      some (FVal.s (getOrderPositionSide isHedged opts.side opts.type opts.reduceOnly)) := rfl

/-- C9: for every simple (non-split) intent formatted while the account is
hedged, no emitted payload — primary lot, extra lot, or attached
StopLoss/TakeProfit — contains a `reduceOnly` field; a reduce-only intention
on a Market/Limit intent is encoded solely by flipping `positionSide`. -/
theorem C9_hedged_no_reduceOnly_field :
    (∀ (store : Store) (nextId : ℕ) (opts : PlaceOrderOpts) (ps : List Payload),
        store.isHedged = true →
        formatCreateOrder store nextId opts = Except.ok ps →
        ∀ p ∈ ps, Payload.get p "reduceOnly" = none) ∧
    (∀ (side : OrderSide) (t : OrderType),
        t = OrderType.Market ∨ t = OrderType.Limit →
        getOrderPositionSide true side t true =
          flipPositionSideStr (getOrderPositionSide true side t false)) := by
  constructor
  · intro store nextId opts ps hh hok p hp
    unfold formatCreateOrder at hok
    split at hok
    · unfold formatCreateTrailingStopLossOrder at hok
      repeat' split at hok
      all_goals
        first
        | exact Except.noConfusion hok
        | (rw [Except.ok.injEq] at hok
           subst hok
           simp only [List.mem_singleton] at hp
           subst hp
           rfl)
    · split at hok
      · exact Except.noConfusion hok
      · rw [Except.ok.injEq] at hok
        subst hok
        obtain ⟨q, hq, m, rfl⟩ := mem_assignIds _ _ _ hp
        rw [payloadGet_setField_ne _ _ (by decide)]
        rw [List.mem_append] at hq
        rcases hq with hq | hq
        · obtain ⟨v, rfl⟩ := mem_lotPayloads _ _ _ _ hq
          rw [payloadGet_setField_ne _ _ (by decide), hh]
          exact reqFields_hedged_no_reduceOnly _ opts
        · obtain ⟨sp, t, rfl⟩ := mem_stopTpPayloads _ _ _ hq
          rw [payloadGet_attachedStop_ne _ _ _ _ (by decide) (by decide) (by decide)
            (by decide) (by decide) (by decide), hh]
          exact reqFields_hedged_no_reduceOnly _ opts
  · intro side t ht
    rcases ht with rfl | rfl <;> cases side <;> rfl

/-- C1 counterexample: formatting the hedged Buy Limit intent with
`stopLoss = 95` emits the attached StopLoss payload with
`positionSide = LONG` (inherited from the primary request skeleton), not the
`positionSide = SHORT` the claim states. -/
theorem C1_counterexample_stoploss_positionSide :
    formatCreateOrder storeC1 0 (optsC1 95) = Except.ok [c1Primary, c1Stop 95] ∧
    Payload.get (c1Stop 95) "positionSide" = some (FVal.s "LONG") ∧
    Payload.get (c1Stop 95) "positionSide" ≠ some (FVal.s "SHORT") := by
  refine ⟨by decide, by decide, by decide⟩

/-- C1 amended: on a hedged account a Buy Limit intent with `stopLoss = 95`
yields the primary payload with `positionSide = LONG` and an attached
StopLoss payload with `side = SELL`, `positionSide = LONG` (inherited from
the primary payload, not flipped), `closePosition = true`, `stopPrice = 95`,
and neither a `price` nor a `reduceOnly` field; in general, every payload
emitted by the simple formatter carries the `positionSide` resolved from the
primary intent. -/
theorem C1_amended_hedged_stoploss :
    (formatCreateOrder storeC1 0 (optsC1 95) = Except.ok [c1Primary, c1Stop 95] ∧
     Payload.get c1Primary "positionSide" = some (FVal.s "LONG") ∧
     Payload.get (c1Stop 95) "side" = some (FVal.s "SELL") ∧
     Payload.get (c1Stop 95) "positionSide" = some (FVal.s "LONG") ∧
     Payload.get (c1Stop 95) "closePosition" = some (FVal.s "true") ∧
     Payload.get (c1Stop 95) "stopPrice" = some (FVal.q 95) ∧
     Payload.get (c1Stop 95) "price" = none ∧
     Payload.get (c1Stop 95) "reduceOnly" = none) ∧
    (∀ (store : Store) (nextId : ℕ) (opts : PlaceOrderOpts) (ps : List Payload),
        formatCreateOrder store nextId opts = Except.ok ps →
        ∀ p ∈ ps, Payload.get p "positionSide" =
          some (FVal.s (getOrderPositionSide store.isHedged opts.side opts.type
            opts.reduceOnly))) := by
  constructor
  · exact ⟨by decide, by decide, by decide, by decide, by decide, by decide, by decide,
      by decide⟩
  · intro store nextId opts ps hok p hp
    unfold formatCreateOrder at hok
    split at hok
    · unfold formatCreateTrailingStopLossOrder at hok
      repeat' split at hok
      all_goals
        first
        | exact Except.noConfusion hok
        | (rw [Except.ok.injEq] at hok
           subst hok
           simp only [List.mem_singleton] at hp
           subst hp
           rfl)
    · split at hok
      · exact Except.noConfusion hok
      · rw [Except.ok.injEq] at hok
        subst hok
        obtain ⟨q, hq, m, rfl⟩ := mem_assignIds _ _ _ hp
        rw [payloadGet_setField_ne _ _ (by decide)]
        rw [List.mem_append] at hq
        rcases hq with hq | hq
        · obtain ⟨v, rfl⟩ := mem_lotPayloads _ _ _ _ hq
          rw [payloadGet_setField_ne _ _ (by decide)]
          exact reqFields_get_positionSide _ _ opts
        · obtain ⟨sp, t, rfl⟩ := mem_stopTpPayloads _ _ _ hq
          rw [payloadGet_attachedStop_ne _ _ _ _ (by decide) (by decide) (by decide)
            (by decide) (by decide) (by decide)]
          exact reqFields_get_positionSide _ _ opts

/-- Witness for the amended C1: its general clause applied at the concrete
hedge-mode stop-loss scenario. -/
theorem C1_amended_witness :
    Payload.get (c1Stop 95) "positionSide" =
      some (FVal.s (getOrderPositionSide storeC1.isHedged (optsC1 95).side (optsC1 95).type
        (optsC1 95).reduceOnly)) :=
  C1_amended_hedged_stoploss.2 storeC1 0 (optsC1 95) [c1Primary, c1Stop 95] (by decide)
    (c1Stop 95) (by decide)

/-- Witness for C9 at the hedge-mode stop-loss scenario: the attached
StopLoss payload of a hedged Buy Limit intent has no `reduceOnly` field. -/
theorem C9_witness :
    storeC1.isHedged = true ∧ Payload.get (c1Stop 95) "reduceOnly" = none := by
  constructor
  · rfl
  · exact C9_hedged_no_reduceOnly_field.1 storeC1 0 (optsC1 95) [c1Primary, c1Stop 95] rfl
      (by decide) (c1Stop 95) (by decide)

/-- C4 counterexample: for the market with `max = 100`, `step = 0.1` and the
Buy 250.35 intent, the code emits three lots of 66.6 and a remainder lot of
50.3 (it first snaps the amount to 250.3, takes `rest = 250.3 mod 100 = 50.3`
and splits the rest into ⌈250.3/100⌉ = 3 lots), not three lots of 83.4 and a
remainder of 0.15 as the claim states. -/
theorem C4_counterexample_lot_quantities :
    formatCreateOrder storeC4 0 optsC4 =
      Except.ok [c4Payload 66.6 0, c4Payload 66.6 1, c4Payload 66.6 2, c4Payload 50.3 3] ∧
    Payload.get (c4Payload 66.6 0) "quantity" ≠ some (FVal.q 83.4) ∧
    Payload.get (c4Payload 50.3 3) "quantity" ≠ some (FVal.q 0.15) := by
  refine ⟨by decide, by decide, by decide⟩

/-- C4 amended: formatting the Buy 250.35 intent on the `max = 100`,
`step = 0.1` market yields exactly four payloads — three equal lots of
quantity 66.6 and one remainder lot of quantity 50.3 — all sharing the same
request skeleton and each bearing a distinct client order id. -/
theorem C4_amended_lot_splitting :
    formatCreateOrder storeC4 0 optsC4 =
      Except.ok [c4Payload 66.6 0, c4Payload 66.6 1, c4Payload 66.6 2, c4Payload 50.3 3] ∧
    ([c4Payload 66.6 0, c4Payload 66.6 1, c4Payload 66.6 2, c4Payload 50.3 3].map
        (fun p => Payload.get p "quantity")) =
      [some (FVal.q 66.6), some (FVal.q 66.6), some (FVal.q 66.6), some (FVal.q 50.3)] ∧
    ([c4Payload 66.6 0, c4Payload 66.6 1, c4Payload 66.6 2, c4Payload 50.3 3].map
        (fun p => Payload.get p "newClientOrderId")).Nodup ∧
    ([c4Payload 66.6 0, c4Payload 66.6 1, c4Payload 66.6 2, c4Payload 50.3 3].map
        (fun p => stripKeys p ["quantity", "newClientOrderId"])) =
      List.replicate 4
        [("symbol", FVal.s "BTCUSDT"), ("positionSide", FVal.s "BOTH"),
         ("side", FVal.s "BUY"), ("type", FVal.s "MARKET")] := by
  refine ⟨by decide, by decide, by decide, by decide⟩

/-- C2: the bootstrap mapping stores `contracts = |positionAmt| ≥ 0`, but the
ACCOUNT_UPDATE slot handler writes the venue's raw signed `pa` into
`contracts`: replaying a slot with `pa = -5` onto a stored short position
leaves a stored position with `contracts = -5 < 0`, violating the
`contracts ≥ 0` invariant the bootstrap path (and the spec) maintain. -/
theorem C2_contracts_nonneg_evaluation :
    ((applyPositionSlot [shortPosC2] slotC2).map (fun p => p.contracts)) = [(-5 : ℚ)] ∧
    ((-5 : ℚ) < 0) ∧
    (mapAccountPosition
        { symbol := "BTCUSDT", entryPrice := 100, positionAmt := -5, unrealizedProfit := 0,
          positionSide := "SHORT", leverage := 10, liquidationPrice := 0 }).contracts = 5 ∧
    (∀ p : RawAccountPosition, 0 ≤ (mapAccountPosition p).contracts) := by
  refine ⟨by decide, by decide, by decide, ?_⟩
  intro p
  exact abs_nonneg _

/-- C7: when a bootstrap or tick fetch fails, the operation emits the error
and returns the previously stored state unchanged (markets, tickers, open
orders, and balance-and-positions respectively); in particular an error
raised inside the balance computation (a missing conversion ticker) is also
caught and leaves the prior positions and balance in place. -/
theorem C7_fetch_errors_keep_prior_state (store : Store) (e : String) :
    fetchMarkets (Except.error e) store = (store.markets, [e]) ∧
    fetchTickers (Except.error e) store = (store.tickers, [e]) ∧
    fetchOrders (Except.error e) store = (store.orders, [e]) ∧
    fetchBalanceAndPositions (Except.error e) store = ((store.positions, store.balance), [e]) ∧
    (∀ data : RawAccountData, accountResult store data = Except.error e →
      fetchBalanceAndPositions (Except.ok data) store =
        ((store.positions, store.balance), [e])) := by
  refine ⟨rfl, rfl, rfl, rfl, ?_⟩
  intro data hacc
  unfold fetchBalanceAndPositions
  rw [show (Except.ok data : Except String RawAccountData).bind (accountResult store) =
    accountResult store data from rfl, hacc]

/-- Witness for C7: a store whose tickers lack the ABCUSDT conversion pair
makes the balance computation throw `Ticker ABCUSDT not found`; the fetch
returns the prior positions and balance and emits that error. -/
theorem C7_witness :
    accountResult storeC10
        { availableBalance := 1, totalInitialMargin := 0, totalUnrealizedProfit := 0,
          assets := [{ asset := "ABC", walletBalance := 2 }], positions := [] } =
      Except.error "Ticker ABCUSDT not found" ∧
    fetchBalanceAndPositions
        (Except.ok
          { availableBalance := 1, totalInitialMargin := 0, totalUnrealizedProfit := 0,
            assets := [{ asset := "ABC", walletBalance := 2 }], positions := [] })
        storeC10 =
      ((storeC10.positions, storeC10.balance), ["Ticker ABCUSDT not found"]) :=
  ⟨by decide,
    (C7_fetch_errors_keep_prior_state storeC10 "Ticker ABCUSDT not found").2.2.2.2
      { availableBalance := 1, totalInitialMargin := 0, totalUnrealizedProfit := 0,
        assets := [{ asset := "ABC", walletBalance := 2 }], positions := [] }
      (by decide)⟩

/-- C8: on the ping echo (`id == 42`) the private stream stores
`latency = round((now − sentAt)/2)`, clears any in-flight re-ping timer, and
arms exactly one fresh 10-second re-ping timer; for a ping sent at
t = 1000 ms answered at t = 1080 ms the stored latency is exactly 40. -/
theorem C8_ping_latency_and_rearm (st : WsState) (now : ℚ) :
    (onPongMessage st now).1.latency = jsRound ((now - st.pingAt) / 2) ∧
    (onPongMessage st now).2.cleared = st.pingTimeoutId.toList ∧
    (onPongMessage st now).2.armed = [(st.nextTimerId, 10000)] ∧
    (onPongMessage st now).1.pingTimeoutId = some st.nextTimerId ∧
    (onPongMessage ⟨1000, none, 0, 0⟩ 1080).1.latency = 40 := by
  obtain ⟨pa, pt, la, nt⟩ := st
  refine ⟨rfl, ?_, rfl, rfl, by decide⟩
  cases pt <;> rfl

/-- C10: `setLeverage` throws `Market ... not found` / `Position ... not
found` when market or position is missing; otherwise it clamps the input
into the market's leverage limits, no-ops (returning the unchanged store and
making no venue call) when the stored leverage already equals the clamp, and
otherwise sends exactly the clamped leverage to the venue. -/
theorem C10_setLeverage_clamps (store : Store) (symbol : String) (x : ℚ) :
    (store.markets.find? (fun m => m.symbol = symbol) = none →
      setLeverage store symbol x = Except.error ("Market " ++ symbol ++ " not found")) ∧
    (∀ market, store.markets.find? (fun m => m.symbol = symbol) = some market →
      (store.positions.find? (fun p => p.symbol = symbol) = none →
        setLeverage store symbol x = Except.error ("Position " ++ symbol ++ " not found")) ∧
      (∀ position, store.positions.find? (fun p => p.symbol = symbol) = some position →
        (market.limits.leverage.min ≤ market.limits.leverage.max →
          market.limits.leverage.min ≤
              min (max x market.limits.leverage.min) market.limits.leverage.max ∧
            min (max x market.limits.leverage.min) market.limits.leverage.max ≤
              market.limits.leverage.max) ∧
        (position.leverage = min (max x market.limits.leverage.min) market.limits.leverage.max →
          setLeverage store symbol x = Except.ok (none, store)) ∧
        (position.leverage ≠ min (max x market.limits.leverage.min) market.limits.leverage.max →
          ∀ c s2, setLeverage store symbol x = Except.ok (some c, s2) →
            c.leverage = min (max x market.limits.leverage.min) market.limits.leverage.max ∧
            c.symbol = symbol))) := by
  refine ⟨?_, ?_⟩
  · intro hm
    unfold setLeverage
    rw [hm]
  · intro market hm
    refine ⟨?_, ?_⟩
    · intro hp
      unfold setLeverage
      rw [hm, hp]
    · intro position hp
      have hred : setLeverage store symbol x =
          (if position.leverage ≠
              min (max x market.limits.leverage.min) market.limits.leverage.max then
            Except.ok
              (some ⟨symbol, min (max x market.limits.leverage.min)
                  market.limits.leverage.max⟩,
                { store with
                    positions := store.positions.map
                      (fun p =>
                        if p.symbol = symbol then
                          { p with
                              leverage :=
                                min (max x market.limits.leverage.min)
                                  market.limits.leverage.max }
                        else p) })
          else Except.ok (none, store)) := by
        unfold setLeverage
        rw [hm, hp]
      refine ⟨?_, ?_, ?_⟩
      · intro hle
        exact ⟨le_min (le_max_right x _) hle, min_le_right _ _⟩
      · intro heq
        rw [hred, if_neg (by simp [heq])]
      · intro hne c s2 hok
        rw [hred, if_pos hne, Except.ok.injEq] at hok
        have hc : (some ⟨symbol, min (max x market.limits.leverage.min)
            market.limits.leverage.max⟩ : Option SetLeverageCall) =
            some c := congrArg Prod.fst hok
        rw [Option.some.injEq] at hc
        rw [← hc]
        exact ⟨rfl, rfl⟩

/-! ## Dispatch-queue window lemmas -/

theorem loadAfter_append (a b : List (ℤ × ℕ)) (lo : ℤ) :
    loadAfter (a ++ b) lo = loadAfter a lo + loadAfter b lo := by
  unfold loadAfter
  rw [List.filter_append, List.map_append, List.sum_append]

theorem loadAfter_singleton (t : ℤ) (c : ℕ) (lo : ℤ) :
    loadAfter [(t, c)] lo = if lo < t then c else 0 := by
  unfold loadAfter
  by_cases h : lo < t
  · rw [if_pos h]
    simp [List.filter_cons, h]
  · rw [if_neg h]
    simp [List.filter_cons, h]

theorem windowLoad_append (a b : List (ℤ × ℕ)) (h endT : ℤ) :
    windowLoad (a ++ b) h endT = windowLoad a h endT + windowLoad b h endT := by
  unfold windowLoad
  rw [List.filter_append, List.map_append, List.sum_append]

theorem windowLoad_singleton (t : ℤ) (c : ℕ) (h endT : ℤ) :
    windowLoad [(t, c)] h endT = if endT - h < t ∧ t ≤ endT then c else 0 := by
  unfold windowLoad
  by_cases hc : endT - h < t ∧ t ≤ endT
  · rw [if_pos hc]
    simp [List.filter_cons, hc]
  · rw [if_neg hc]
    simp [List.filter_cons, hc]

theorem countLater_append (a b : List ℤ) (lo : ℤ) :
    countLater (a ++ b) lo = countLater a lo + countLater b lo := by
  unfold countLater
  rw [List.filter_append, List.length_append]

theorem countLater_replicate (c : ℕ) (t lo : ℤ) :
    countLater (List.replicate c t) lo = if lo < t then c else 0 := by
  unfold countLater
  induction c with
  | zero => simp
  | succ n ih =>
    rw [List.replicate_succ, List.filter_cons]
    by_cases h : lo < t
    · rw [if_pos (by simpa using h), List.length_cons, ih, if_pos h, if_pos h]
    · rw [if_neg (by simpa using h), ih, if_neg h, if_neg h]

/-- Pruning at `now` does not change the count of timestamps later than any
`lo ≥ now - horizon`: pruned entries are at most `now - horizon`. -/
theorem countLater_prune (horizon now lo : ℤ) (w : List ℤ) (h : now - horizon ≤ lo) :
    countLater (pruneWindow horizon now w) lo = countLater w lo := by
  unfold countLater pruneWindow
  rw [List.filter_filter]
  apply congrArg List.length
  apply List.filter_congr
  intro t _
  by_cases hlt : lo < t
  · have : now - t < horizon := by omega
    simp [hlt, this]
  · simp [hlt]

/-- Every entry surviving the prune lies strictly later than
`now - horizon`. -/
theorem countLater_pruneWindow_full (horizon now : ℤ) (w : List ℤ) :
    countLater (pruneWindow horizon now w) (now - horizon) =
      (pruneWindow horizon now w).length := by
  unfold countLater
  apply congrArg List.length
  rw [List.filter_eq_self]
  intro t ht
  have := (List.mem_filter.mp ht).2
  simp only [decide_eq_true_eq] at this ⊢
  omega

/-- Monotone comparison of filtered sums: if the first filter implies the
second on every element, the first sum is bounded by the second. -/
theorem sum_filter_le_of_imp (l : List (ℤ × ℕ)) (p q : ℤ × ℕ → Bool)
    (h : ∀ tc ∈ l, p tc = true → q tc = true) :
    ((l.filter p).map (fun tc => tc.2)).sum ≤ ((l.filter q).map (fun tc => tc.2)).sum := by
  induction l with
  | nil => simp
  | cons tc rest ih =>
    have ihr := ih (fun z hz hp => h z (List.mem_cons_of_mem tc hz) hp)
    rw [List.filter_cons, List.filter_cons]
    by_cases hp : p tc = true
    · rw [if_pos (by simpa using hp), if_pos (by simpa using h tc (List.mem_cons_self tc rest) hp)]
      simpa using Nat.add_le_add_left ihr tc.2
    · rw [if_neg (by simpa using hp)]
      by_cases hq : q tc = true
      · rw [if_pos (by simpa using hq)]
        calc ((rest.filter p).map (fun tc => tc.2)).sum
            ≤ ((rest.filter q).map (fun tc => tc.2)).sum := ihr
          _ ≤ tc.2 + ((rest.filter q).map (fun tc => tc.2)).sum := Nat.le_add_left _ _
          _ = ((tc :: rest.filter q).map (fun tc => tc.2)).sum := by simp
      · rw [if_neg (by simpa using hq)]
        exact ihr

theorem windowLoad_le_loadAfter (past : List (ℤ × ℕ)) (h endT : ℤ) :
    windowLoad past h endT ≤ loadAfter past (endT - h) := by
  unfold windowLoad loadAfter
  apply sum_filter_le_of_imp
  intro tc _ hp
  simp only [Bool.decide_and, Bool.and_eq_true, decide_eq_true_eq] at hp
  simp only [decide_eq_true_eq]
  omega

theorem loadAfter_mono (past : List (ℤ × ℕ)) (lo1 lo2 : ℤ) (h : lo1 ≤ lo2) :
    loadAfter past lo2 ≤ loadAfter past lo1 := by
  unfold loadAfter
  apply sum_filter_le_of_imp
  intro tc _ hp
  simp only [decide_eq_true_eq] at hp ⊢
  omega

/-- Behaviour of one loop iteration: both windows become the pruned windows
extended by `admitted` copies of `now`, and either the iteration is the
saturated branch (admitting nothing) or the admitted count respects both
remaining capacities. -/
theorem processIteration_spec (s : QState) (now : ℤ) (queueLen : ℕ) :
    (processIteration s now queueLen).state.w10 =
        pruneWindow 10000 now s.w10 ++
          List.replicate (processIteration s now queueLen).admitted now ∧
    (processIteration s now queueLen).state.w60 =
        pruneWindow 60000 now s.w60 ++
          List.replicate (processIteration s now queueLen).admitted now ∧
    ((processIteration s now queueLen).admitted = 0 ∨
      ((processIteration s now queueLen).admitted +
          (pruneWindow 10000 now s.w10).length ≤ 300 ∧
        (processIteration s now queueLen).admitted +
          (pruneWindow 60000 now s.w60).length ≤ 1200)) := by
  simp only [processIteration]
  split
  · exact ⟨(List.append_nil _).symm, (List.append_nil _).symm, Or.inl rfl⟩
  · next hns =>
    push_neg at hns
    refine ⟨rfl, rfl, Or.inr ⟨?_, ?_⟩⟩
    · have h1 := hns.1
      dsimp only
      omega
    · have h2 := hns.2
      dsimp only
      omega

/-- The inductive core of the rate-window bound: running the loop from a
state whose windows dominate the recent past admissions keeps every trailing
10-second window at ≤ 300 admitted payloads and every trailing 60-second
window at ≤ 1200. -/
theorem runQueue_bounded_aux (inputs : List (ℤ × ℕ)) :
    ∀ (s : QState) (past : List (ℤ × ℕ)),
      timesOrderedB inputs = true →
      (∀ tc ∈ past, ∀ i ∈ inputs, tc.1 ≤ i.1) →
      (∀ lo : ℤ, (∃ i ∈ inputs, i.1 - 10000 ≤ lo) →
        loadAfter past lo ≤ countLater s.w10 lo) →
      (∀ lo : ℤ, (∃ i ∈ inputs, i.1 - 60000 ≤ lo) →
        loadAfter past lo ≤ countLater s.w60 lo) →
      (∀ T : ℤ, windowLoad past 10000 T ≤ 300) →
      (∀ T : ℤ, windowLoad past 60000 T ≤ 1200) →
      ∀ T : ℤ, windowLoad (past ++ runQueue s inputs) 10000 T ≤ 300 ∧
        windowLoad (past ++ runQueue s inputs) 60000 T ≤ 1200 := by
  induction inputs with
  | nil =>
    intro s past _ _ _ _ h10 h60 T
    simp only [runQueue, List.append_nil]
    exact ⟨h10 T, h60 T⟩
  | cons head rest ih =>
    obtain ⟨now, qlen⟩ := head
    intro s past hord hpast hinv10 hinv60 hpast10 hpast60 T
    rw [timesOrderedB, Bool.and_eq_true] at hord
    obtain ⟨hall, hordrest⟩ := hord
    have hnow : ∀ tc ∈ rest, now ≤ tc.1 := by
      intro tc htc
      exact of_decide_eq_true (List.all_eq_true.mp hall tc htc)
    obtain ⟨e10, e60, hcap⟩ := processIteration_spec s now qlen
    rw [show runQueue s ((now, qlen) :: rest) =
        (now, (processIteration s now qlen).admitted) ::
          runQueue (processIteration s now qlen).state rest from rfl]
    rw [show past ++ ((now, (processIteration s now qlen).admitted) ::
        runQueue (processIteration s now qlen).state rest) =
        (past ++ [(now, (processIteration s now qlen).admitted)]) ++
          runQueue (processIteration s now qlen).state rest from by
      rw [List.append_cons]]
    apply ih (processIteration s now qlen).state
      (past ++ [(now, (processIteration s now qlen).admitted)]) hordrest
    · intro tc htc i hi
      rw [List.mem_append] at htc
      rcases htc with htc | htc
      · exact hpast tc htc i (List.mem_cons_of_mem _ hi)
      · rw [List.mem_singleton] at htc
        subst htc
        exact hnow i hi
    · intro lo hex
      obtain ⟨i, hi, hlo⟩ := hex
      have hlo' : now - 10000 ≤ lo := by
        have := hnow i hi
        omega
      rw [e10, countLater_append, countLater_replicate,
        countLater_prune 10000 now lo s.w10 hlo',
        loadAfter_append, loadAfter_singleton]
      exact Nat.add_le_add
        (hinv10 lo ⟨(now, qlen), List.mem_cons_self _ _, by simpa using hlo'⟩) le_rfl
    · intro lo hex
      obtain ⟨i, hi, hlo⟩ := hex
      have hlo' : now - 60000 ≤ lo := by
        have := hnow i hi
        omega
      rw [e60, countLater_append, countLater_replicate,
        countLater_prune 60000 now lo s.w60 hlo',
        loadAfter_append, loadAfter_singleton]
      exact Nat.add_le_add
        (hinv60 lo ⟨(now, qlen), List.mem_cons_self _ _, by simpa using hlo'⟩) le_rfl
    · intro T2
      rw [windowLoad_append, windowLoad_singleton]
      by_cases hw : T2 - 10000 < now ∧ now ≤ T2
      · rw [if_pos hw]
        rcases hcap with hzero | ⟨hc10, _⟩
        · rw [hzero]
          simpa using hpast10 T2
        · have h1 := windowLoad_le_loadAfter past 10000 T2
          have h2 : loadAfter past (T2 - 10000) ≤ loadAfter past (now - 10000) :=
            loadAfter_mono past (now - 10000) (T2 - 10000) (by omega)
          have h3 : loadAfter past (now - 10000) ≤ countLater s.w10 (now - 10000) :=
            hinv10 (now - 10000) ⟨(now, qlen), List.mem_cons_self _ _, le_rfl⟩
          have h4 : countLater s.w10 (now - 10000) =
              (pruneWindow 10000 now s.w10).length := by
            rw [← countLater_prune 10000 now (now - 10000) s.w10 le_rfl]
            exact countLater_pruneWindow_full 10000 now s.w10
          omega
      · rw [if_neg hw]
        simpa using hpast10 T2
    · intro T2
      rw [windowLoad_append, windowLoad_singleton]
      by_cases hw : T2 - 60000 < now ∧ now ≤ T2
      · rw [if_pos hw]
        rcases hcap with hzero | ⟨_, hc60⟩
        · rw [hzero]
          simpa using hpast60 T2
        · have h1 := windowLoad_le_loadAfter past 60000 T2
          have h2 : loadAfter past (T2 - 60000) ≤ loadAfter past (now - 60000) :=
            loadAfter_mono past (now - 60000) (T2 - 60000) (by omega)
          have h3 : loadAfter past (now - 60000) ≤ countLater s.w60 (now - 60000) :=
            hinv60 (now - 60000) ⟨(now, qlen), List.mem_cons_self _ _, le_rfl⟩
          have h4 : countLater s.w60 (now - 60000) =
              (pruneWindow 60000 now s.w60).length := by
            rw [← countLater_prune 60000 now (now - 60000) s.w60 le_rfl]
            exact countLater_pruneWindow_full 60000 now s.w60
          omega
      · rw [if_neg hw]
        simpa using hpast60 T2

/-- C3: for every run of the scheduling loop (arbitrary nondecreasing
iteration times and arbitrary queue lengths, covering every sequence of
enqueue calls) and every point in time `T`, the loop admits (charges and
dispatches) at most 300 payloads whose admission timestamps lie in the
trailing 10-second window `(T-10s, T]` and at most 1200 in the trailing
60-second window `(T-60s, T]`. -/
theorem C3_rate_windows_bounded (inputs : List (ℤ × ℕ))
    (hord : timesOrderedB inputs = true) (T : ℤ) :
    windowLoad (runQueue ⟨[], []⟩ inputs) 10000 T ≤ 300 ∧
    windowLoad (runQueue ⟨[], []⟩ inputs) 60000 T ≤ 1200 := by
  have h := runQueue_bounded_aux inputs ⟨[], []⟩ [] hord (by simp)
    (by
      intro lo _
      simp [loadAfter])
    (by
      intro lo _
      simp [loadAfter])
    (by
      intro T2
      simp [windowLoad])
    (by
      intro T2
      simp [windowLoad])
    T
  simpa using h

set_option maxRecDepth 1000000 in
/-- Witness for C3: a run of seventy back-to-back iterations against a
400-deep queue admits exactly 300 payloads in the trailing 10-second window
ending at its last iteration — the cap is reached and, per the theorem, not
exceeded. -/
theorem C3_witness :
    timesOrderedB c3burst = true ∧
    windowLoad (runQueue ⟨[], []⟩ c3burst) 10000 69 = 300 ∧
    windowLoad (runQueue ⟨[], []⟩ c3burst) 10000 69 ≤ 300 :=
  ⟨by decide, by decide, (C3_rate_windows_bounded c3burst (by decide) 69).1⟩

set_option maxRecDepth 100000 in
/-- C5 counterexample: with both windows holding 300 charges at t = 1000 ms
and now = 5000 ms, the saturated branch sleeps `now − oldest + 1 = 4001` ms —
the age of the oldest entry plus one — not the 6000 ms left until that entry
ages out of the 10-second window as the claim states. -/
theorem C5_counterexample_sleep_duration :
    (processIteration qStateC5 5000 1).admitted = 0 ∧
    (processIteration qStateC5 5000 1).sleepMs = some 4001 ∧
    (1000 + 10000 - 5000 : ℤ) = 6000 ∧
    (4001 : ℚ) ≠ 6000 := by
  refine ⟨by decide, by decide, by decide, by decide⟩

/-- C5 amended: whenever the pruned windows are saturated (at least 300
entries in the 10-second window or 1200 in the 60-second window) and both
pruned windows are non-empty, the iteration dispatches nothing, admits
nothing, and sleeps `now − min(oldest10, oldest60) + 1` milliseconds (the
age of the oldest tracked entry plus one millisecond) before the loop
re-checks. -/
theorem C5_amended_saturated_sleep (s : QState) (now : ℤ) (queueLen : ℕ)
    (t10 : ℤ) (r10 : List ℤ) (t60 : ℤ) (r60 : List ℤ)
    (h10 : pruneWindow 10000 now s.w10 = t10 :: r10)
    (h60 : pruneWindow 60000 now s.w60 = t60 :: r60)
    (hsat : 300 ≤ (t10 :: r10).length ∨ 1200 ≤ (t60 :: r60).length) :
    (processIteration s now queueLen).admitted = 0 ∧
    (processIteration s now queueLen).dispatchedBatch = false ∧
    (processIteration s now queueLen).sleepMs = some ((now - min t10 t60 + 1 : ℤ) : ℚ) := by
  simp only [processIteration, h10, h60]
  rw [if_pos hsat]
  exact ⟨rfl, rfl, rfl⟩

set_option maxRecDepth 100000 in
/-- Witness for the amended C5 at the concrete saturated state. -/
theorem C5_amended_witness :
    (processIteration qStateC5 5000 7).admitted = 0 ∧
    (processIteration qStateC5 5000 7).dispatchedBatch = false ∧
    (processIteration qStateC5 5000 7).sleepMs = some ((5000 - min 1000 1000 + 1 : ℤ) : ℚ) :=
  C5_amended_saturated_sleep qStateC5 5000 7 1000 (List.replicate 299 1000) 1000
    (List.replicate 299 1000) (by decide) (by decide) (by decide)

theorem foldl_max_lt_of_lt (l : List ℕ) (b : ℕ) :
    ∀ a, a < b → (∀ y ∈ l, y < b) → l.foldl max a < b := by
  induction l with
  | nil =>
    intro a ha _
    simpa using ha
  | cons y ys ih =>
    intro a ha h
    simp only [List.foldl_cons]
    exact ih (max a y) (max_lt ha (h y (List.mem_cons_self y ys)))
      (fun z hz => h z (List.mem_cons_of_mem y hz))

/-- When no rung count `n` with `3 ≤ n ≤ orders` keeps the smallest slice
feasible, the re-adjust search returns a count below 3. -/
theorem calcValidOrdersCount_lt_three (fs ts : ℚ) (orders : ℕ)
    (amount ms mn tw fp : ℚ)
    (h : ∀ n : ℕ, n < orders + 1 → 3 ≤ n → sliceFeasible fs ts n amount ms mn fp = false) :
    calcValidOrdersCount fs ts orders amount ms mn tw fp < 3 := by
  unfold calcValidOrdersCount
  apply foldl_max_lt_of_lt _ _ 0 (by decide)
  intro y hy
  rw [List.mem_filter] at hy
  obtain ⟨hyr, hyf⟩ := hy
  rw [List.mem_range] at hyr
  by_contra hy3
  push_neg at hy3
  rw [h y hyr hy3] at hyf
  exact Bool.noConfusion hyf

/-- C6: for a split intent whose smallest slice is infeasible
(`lowestSize < minSize` or `lowestSize·fromPrice < minNotional`): with
`autoReAdjust = false` the formatter emits the "Scale too extreme" error and
returns no payload; with `autoReAdjust = true` and no rung count `N' ≥ 3`
keeping the smallest slice feasible, it emits the "cannot split" error and
returns no payload. -/
theorem C6_split_infeasible_errors (store : Store) (nextId : ℕ) (opts : SplidOrderOpts)
    (market : Market) (ticker : Ticker)
    (hm : store.markets.find? (fun m => m.symbol = opts.symbol) = some market)
    (ht : store.tickers.find? (fun t => t.symbol = opts.symbol) = some ticker)
    (hinf : opts.fromScale / calculateWeights opts.fromScale opts.toScale opts.orders *
          (opts.amount / ((opts.fromPrice + opts.toPrice) / 2)) < market.limits.amount.min ∨
        opts.fromScale / calculateWeights opts.fromScale opts.toScale opts.orders *
            (opts.amount / ((opts.fromPrice + opts.toPrice) / 2)) * opts.fromPrice <
          market.limits.minNotional) :
    (opts.autoReAdjust = false →
      formatCreateSplitOrders store nextId opts =
          Except.ok ([],
            [SplitEvent.infoSplitting opts.amount opts.orders,
             SplitEvent.infoQuantity (opts.amount / ((opts.fromPrice + opts.toPrice) / 2)),
             SplitEvent.errorScaleTooExtreme]) ∧
        SplitEvent.message SplitEvent.errorScaleTooExtreme =
          "Scale too extreme to split orders - no adjustments made") ∧
    (opts.autoReAdjust = true →
      (∀ n : ℕ, n < opts.orders + 1 → 3 ≤ n →
        sliceFeasible opts.fromScale opts.toScale n
          (opts.amount / ((opts.fromPrice + opts.toPrice) / 2)) market.limits.amount.min
          market.limits.minNotional opts.fromPrice = false) →
      formatCreateSplitOrders store nextId opts =
          Except.ok ([],
            [SplitEvent.infoSplitting opts.amount opts.orders,
             SplitEvent.infoQuantity (opts.amount / ((opts.fromPrice + opts.toPrice) / 2)),
             SplitEvent.errorCannotSplit]) ∧
        SplitEvent.message SplitEvent.errorCannotSplit =
          "Bruh either u poor or retardio cannot split") := by
  constructor
  · intro hfalse
    refine ⟨?_, rfl⟩
    unfold formatCreateSplitOrders
    simp only [hm, ht]
    rw [if_pos hinf, hfalse, if_neg (by simp)]
    rfl
  · intro htrue hfeas
    refine ⟨?_, rfl⟩
    unfold formatCreateSplitOrders
    simp only [hm, ht]
    rw [if_pos hinf, htrue, if_pos rfl,
      if_pos (calcValidOrdersCount_lt_three opts.fromScale opts.toScale opts.orders
        (opts.amount / ((opts.fromPrice + opts.toPrice) / 2)) market.limits.amount.min
        market.limits.minNotional
        (calculateWeights opts.fromScale opts.toScale opts.orders) opts.fromPrice hfeas)]
    rfl

/-- Witness for C6 at the split auto-readjust scenario (orders = 10, scale
1→20, amount = 12, prices 100→110 on the `minSize = 0.001`,
`minNotional = 5` market): the formatter emits the "cannot split" error and
returns no payload. -/
theorem C6_witness :
    formatCreateSplitOrders storeC6 0 (optsC6 true) =
      Except.ok ([],
        [SplitEvent.infoSplitting (optsC6 true).amount (optsC6 true).orders,
         SplitEvent.infoQuantity ((optsC6 true).amount /
           (((optsC6 true).fromPrice + (optsC6 true).toPrice) / 2)),
         SplitEvent.errorCannotSplit]) :=
  ((C6_split_infeasible_errors storeC6 0 (optsC6 true) mC6 tC6 (by decide) (by decide)
      (by decide)).2 rfl (by decide)).1

/-- Witness for C10: at a concrete store holding a BTCUSDT market with
leverage limits [1, 125] and a position at leverage 10, requesting leverage
200 sends the clamped value 125. -/
theorem C10_witness :
    ∀ c s2,
      setLeverage storeC10 "BTCUSDT" 200 = Except.ok (some c, s2) →
        c.leverage = min (max 200 mC1.limits.leverage.min) mC1.limits.leverage.max ∧
        c.symbol = "BTCUSDT" :=
  (((C10_setLeverage_clamps storeC10 "BTCUSDT" 200).2 mC1
      (by decide)).2 shortPosC2 (by decide)).2.2 (by decide)
